import Mathlib

/-!
Script Converter: the utility layer of `static/js/script.js`.

A shallow embedding of the non-DOM helpers of the page script
(`utils.formatFileSize`, `utils.debounce`, `fileManager.validateFile`,
`apiManager.request`) and the properties the specification states about them.

Conventions of the embedding.

* A byte count is a `Nat`. `Math.floor(Math.log(bytes) / Math.log(k))` is read in exact
  arithmetic, as the integer logarithm `Nat.log k bytes`; `x.toFixed(2)` is the nearest
  number of hundredths, a tie going up; `parseFloat` of that text followed by the
  conversion to a string in `+ ' '` prints the hundredths without trailing zeros.
* A JavaScript string is a `String`; `toLowerCase` is fixed on the ASCII letters and takes
  the host's table for the other code points as the parameter `uni`.
* The host (timers, `fetch`, the JSON decoder, the toast widget) is explicit state or a
  parameter; an `async` function is its sequential reading, an awaited rejection being an
  exception.
-/

namespace ScriptConverter

/-! ## utils.formatFileSize -/

namespace utils

/-- The array `sizes` of `formatFileSize`. -/
def sizes : List String := ["Bytes", "KB", "MB", "GB"]

/-- The element `sizes[i]` turned into text by `+`: an index outside the array reads
`undefined`, which concatenates as the word "undefined". -/
def sizesAt (i : Nat) : String :=
  match sizes.get? i with
  | some u => u
  | none => "undefined"

/-- The integer part of the logarithm of `n` in base `k`, by repeated division; `fuel`
bounds the number of divisions. -/
def floorLog (k : Nat) : Nat → Nat → Nat
  | 0, _ => 0
  | fuel + 1, n => if n < k then 0 else floorLog k fuel (n / k) + 1

/-- The index `i = Math.floor(Math.log(bytes) / Math.log(k))` with `k = 1024`, in exact
arithmetic. -/
def unitIndex (bytes : Nat) : Nat := floorLog 1024 bytes bytes

/-- The text `(num / den).toFixed(2)` as a number of hundredths: the integer `n` with
`n / 100` nearest to `num / den`, the larger one on a tie. -/
def toFixed2 (num den : Nat) : Nat := (200 * num + den) / (2 * den)

/-- The text of the number `h / 100` as `parseFloat(...) + ' '` prints it: at most two
decimals, no trailing zero, no decimal point on an integer. -/
def numberText (h : Nat) : String :=
  if h % 100 = 0 then toString (h / 100)
  else if h % 10 = 0 then toString (h / 100) ++ "." ++ toString (h % 100 / 10)
  else toString (h / 100) ++ "." ++ toString (h % 100 / 10) ++ toString (h % 10)

/-- The hundredths that `formatFileSize` prints in front of the unit:
`(bytes / Math.pow(k, i)).toFixed(2)`. -/
def printedHundredths (bytes : Nat) : Nat :=
  toFixed2 bytes (1024 ^ unitIndex bytes)

/-- The function `utils.formatFileSize(bytes)`. -/
def formatFileSize (bytes : Nat) : String :=
  if bytes = 0 then "0 Bytes"
  else numberText (printedHundredths bytes) ++ " " ++ sizesAt (unitIndex bytes)

/-! ## utils.debounce -/

/-- A timer the host holds after `setTimeout(later, wait)`: its handle, the time before
which it cannot fire, and the arguments the closure `later` captured. -/
structure Timer (α : Type) where
  id : Nat
  due : Nat
  args : α
deriving DecidableEq, Repr

/-- The state behind one function returned by `debounce(func, wait)`: the variable
`timeout` of the closure (`none` is `undefined`), the timers of the host, the next handle
the host gives out, and the calls of `func` made so far, oldest first, each with the time
of the call and its arguments. -/
structure Debounced (α : Type) where
  wait : Nat
  timeout : Option Nat
  timers : List (Timer α)
  nextId : Nat
  calls : List (Nat × α)
deriving DecidableEq, Repr

/-- The call `debounce(func, wait)`: `timeout` is declared and left undefined. -/
def debounce {α : Type} (wait : Nat) : Debounced α :=
  { wait := wait, timeout := none, timers := [], nextId := 1, calls := [] }

/-- The call `clearTimeout(timeout)`: the timer with that handle, if any, is dropped; an
undefined or stale handle changes nothing. -/
def clearTimeout {α : Type} (s : Debounced α) : Debounced α :=
  match s.timeout with
  | none => s
  | some h => { s with timers := s.timers.filter (fun t => t.id != h) }

/-- The statement `timeout = setTimeout(later, wait)` at time `now`, `later` holding
`args`. -/
def setTimeout {α : Type} (now : Nat) (args : α) (s : Debounced α) : Debounced α :=
  { s with
    timeout := some s.nextId,
    timers := s.timers ++ [{ id := s.nextId, due := now + s.wait, args := args }],
    nextId := s.nextId + 1 }

/-- The closure `later` run by the host at time `now`: `clearTimeout(timeout)`, then
`func(...args)`. -/
def later {α : Type} (args : α) (now : Nat) (s : Debounced α) : Debounced α :=
  let s1 := clearTimeout s
  { s1 with calls := s1.calls ++ [(now, args)] }

/-- The function `executedFunction(...args)` called at time `now`. It has no `return`:
its value is `undefined`, the `Unit` of the pair. -/
def executedFunction {α : Type} (now : Nat) (args : α) (s : Debounced α) :
    Debounced α × Unit :=
  (setTimeout now args (clearTimeout s), ())

/-- The timer the host runs next at time `now`: among those whose delay has elapsed, the
one due first, the oldest of them on a tie. -/
def nextDue {α : Type} (now : Nat) : List (Timer α) → Option (Timer α)
  | [] => none
  | t :: ts =>
    match nextDue now ts with
    | none => if t.due ≤ now then some t else none
    | some b => if t.due ≤ now ∧ t.due ≤ b.due then some t else some b

/-- The host running its due timers at time `now`: each one leaves the table, then its
`later` runs. `fuel` bounds the number of timers run. -/
def runTimers {α : Type} (now : Nat) : Nat → Debounced α → Debounced α
  | 0, s => s
  | fuel + 1, s =>
    match nextDue now s.timers with
    | none => s
    | some t =>
      runTimers now fuel
        (later t.args now { s with timers := s.timers.filter (fun u => u.id != t.id) })

/-- A turn of the event loop at time `now`: every due timer is run (no `later` creates a
timer, so the number of timers is fuel enough). -/
def tick {α : Type} (now : Nat) (s : Debounced α) : Debounced α :=
  runTimers now s.timers.length s

/-- What happens to a debounced function: it is invoked at a time with arguments, or the
event loop takes a turn at a time. -/
inductive Event (α : Type) where
  | invoke (t : Nat) (args : α)
  | tick (t : Nat)
deriving DecidableEq, Repr

/-- One event applied to the state. -/
def step {α : Type} (s : Debounced α) : Event α → Debounced α
  | .invoke t args => (executedFunction t args s).1
  | .tick t => tick t s

/-- A sequence of events applied in order. -/
def run {α : Type} (es : List (Event α)) (s : Debounced α) : Debounced α :=
  es.foldl step s

/-- A burst: times never go back (`now` is the time reached so far) and every invocation
but the first comes less than `w` after the invocation before it (`prev`). -/
def isBurst {α : Type} (w : Nat) : Option Nat → Nat → List (Event α) → Bool
  | _, _, [] => true
  | prev, now, .tick t :: es => decide (now ≤ t) && isBurst w prev t es
  | none, now, .invoke t _ :: es => decide (now ≤ t) && isBurst w (some t) t es
  | some p, now, .invoke t _ :: es =>
    decide (now ≤ t) && decide (t < p + w) && isBurst w (some t) t es

/-- The last invocation of a sequence of events and the turns of the event loop that come
after it; `acc` is what has been seen so far. -/
def lastInvoke {α : Type} : Option ((Nat × α) × List Nat) → List (Event α) →
    Option ((Nat × α) × List Nat)
  | acc, [] => acc
  | _, .invoke t args :: es => lastInvoke (some ((t, args), [])) es
  | none, .tick _ :: es => lastInvoke none es
  | some (l, ts), .tick t :: es => lastInvoke (some (l, ts ++ [t])) es

/-- The calls of `func` after a burst whose last invocation came at `tn` with `an`, the
event loop having taken the turns `ticks` since: none until a turn at `tn + w` or later,
and from the first such turn on the one call made at that turn. -/
def expectedCalls {α : Type} (w tn : Nat) (an : α) (ticks : List Nat) : List (Nat × α) :=
  match ticks.find? (fun t => decide (tn + w ≤ t)) with
  | none => []
  | some t => [(t, an)]

/-- The invariant of a burst: `acc` is the last invocation so far with the turns of the
event loop after it, `prev` its time, `now` the time reached. Before the first invocation
nothing is pending or called; after it either the one timer of the last invocation is
pending and `func` has not been called, or that timer has fired and nothing is pending. -/
def BurstInv {α : Type} (w : Nat) (s : Debounced α) :
    Option ((Nat × α) × List Nat) → Option Nat → Nat → Prop
  | none, prev, _ => prev = none ∧ s.wait = w ∧ s.timers = [] ∧ s.calls = []
  | some ((tn, an), ticks), prev, now =>
    prev = some tn ∧ s.wait = w ∧
      match ticks.find? (fun t => decide (tn + w ≤ t)) with
      | none => s.calls = [] ∧ ∃ id, s.timers = [⟨id, tn + w, an⟩] ∧ s.timeout = some id
      | some u => u ≤ now ∧ tn + w ≤ u ∧ s.calls = [(u, an)] ∧ s.timers = []

/-! ## utils.showToast -/

/-- A toast put on the page by `showToast(message, type)`. -/
structure Toast where
  message : String
  type : String
deriving DecidableEq, Repr

/-- The call `utils.showToast(message, type)`: one more toast is shown; the page is the
list of the toasts shown so far. -/
def showToast (message type : String) (page : List Toast) : List Toast :=
  page ++ [{ message := message, type := type }]

end utils

/-! ## fileManager.validateFile -/

namespace fileManager

/-- The attributes of a browser `File` that `validateFile` reads. -/
structure File where
  name : String
  size : Nat
deriving DecidableEq, Repr

/-- The object `validateFile` returns: `error` is absent on a valid result. -/
structure ValidationResult where
  valid : Bool
  error : Option String
deriving DecidableEq, Repr

/-- The default of the parameter `maxSize`: `50 * 1024 * 1024`. -/
def defaultMaxSize : Nat := 50 * 1024 * 1024

/-- The default of the parameter `allowedTypes`: `['.py', '.pyw']`. -/
def defaultAllowedTypes : List String := [".py", ".pyw"]

/-- The call `s.split(sep)` for a one-character separator: the segments between the
occurrences of `sep`, never an empty array. -/
def split (sep : Char) : List Char → List (List Char)
  | [] => [[]]
  | c :: cs =>
    if c = sep then [] :: split sep cs
    else
      match split sep cs with
      | [] => [[c]]
      | seg :: rest => (c :: seg) :: rest

/-- The call `parts.pop()` on the array of segments: its last element. -/
def pop (parts : List (List Char)) : List Char := parts.getLastD []

/-- One character of `toLowerCase`: an ASCII capital goes to its small letter, the other
ASCII characters stay, and a character outside ASCII goes where the host table `uni`
sends it. -/
def lowerChar (uni : Char → Char) (c : Char) : Char :=
  if c.val < 128 then c.toLower else uni c

/-- The call `s.toLowerCase()`. -/
def toLowerCase (uni : Char → Char) (s : List Char) : List Char := s.map (lowerChar uni)

/-- The expression `'.' + file.name.split('.').pop().toLowerCase()`. -/
def extensionOf (uni : Char → Char) (name : String) : String :=
  "." ++ String.mk (toLowerCase uni (pop (split '.' name.data)))

/-- The call `allowedTypes.includes(extension)`. -/
def includes (allowedTypes : List String) (extension : String) : Bool :=
  allowedTypes.contains extension

/-- The call `allowedTypes.join(', ')`. -/
def join (sep : String) (allowedTypes : List String) : String := sep.intercalate allowedTypes

/-- The function `fileManager.validateFile(file, maxSize, allowedTypes)`; `file = none` is
a missing (`null` or `undefined`) file. -/
def validateFile (uni : Char → Char) (file : Option File) (maxSize : Nat)
    (allowedTypes : List String) : ValidationResult :=
  match file with
  | none => { valid := false, error := some "Aucun fichier sélectionné" }
  | some f =>
    if f.size > maxSize then
      { valid := false,
        error := some ("Fichier trop volumineux (max " ++ utils.formatFileSize maxSize ++ ")") }
    else
      let extension := extensionOf uni f.name
      if !includes allowedTypes extension then
        { valid := false,
          error := some ("Type de fichier non autorisé (" ++ join ", " allowedTypes ++ ")") }
      else
        { valid := true, error := none }

/-- The call `validateFile(file)`, both optional parameters taking their defaults. -/
def validateFileDefault (uni : Char → Char) (file : Option File) : ValidationResult :=
  validateFile uni file defaultMaxSize defaultAllowedTypes

/-- The text after the last `'.'` of a name, the whole name when it has none: the words of
the specification for the extension. -/
def afterLastDot (name : List Char) : List Char :=
  (name.reverse.takeWhile (fun c => c != '.')).reverse

/-- The decision procedure of the specification for `validateFile`, case by case. -/
def validateFileSpec (uni : Char → Char) (file : Option File) (maxSize : Nat)
    (allowedTypes : List String) : ValidationResult :=
  if file.isNone then ⟨false, some "Aucun fichier sélectionné"⟩
  else if (file.map File.size).getD 0 > maxSize then
    ⟨false, some ("Fichier trop volumineux (max " ++ utils.formatFileSize maxSize ++ ")")⟩
  else if ("." ++ String.mk (toLowerCase uni (afterLastDot ((file.map File.name).getD "").data)))
      ∉ allowedTypes then
    ⟨false, some ("Type de fichier non autorisé (" ++ ", ".intercalate allowedTypes ++ ")")⟩
  else ⟨true, none⟩

/-- Two characters that are the same, or the capital and the small form of one ASCII
letter. -/
def sameLetter (a b : Char) : Bool :=
  a == b || (a.isUpper && b == a.toLower) || (b.isUpper && a == b.toLower)

/-- Two names that differ only in the case of ASCII letters. -/
def sameUpToAsciiCase : List Char → List Char → Bool
  | [], [] => true
  | a :: as, b :: bs => sameLetter a b && sameUpToAsciiCase as bs
  | _, _ => false

end fileManager

/-! ## apiManager.request -/

namespace apiManager

/-- A headers object: its entries, in insertion order. -/
abbrev Headers := List (String × String)

/-- The body of a request: a text (`JSON.stringify(data)`) or a `FormData` given by its
fields. -/
inductive Body where
  | text (s : String)
  | formData (fields : List (String × String))
deriving DecidableEq, Repr

/-- The value of the property `headers` of an options object that has one: a headers
object, or a value that is no headers object (`undefined`, as in `headers: undefined`). -/
inductive HeadersProp where
  | undefined
  | object (h : Headers)
deriving DecidableEq, Repr

/-- The object `options` of `request`. For `headers`, `none` is an object with no own
property `headers`, and `some v` one whose property holds `v`, `undefined` included: the
two differ under the spread of `defaultOptions`. For `method` and `body`, which have no
default, `none` is a property that is missing or holds `undefined`. -/
structure RequestInit where
  method : Option String
  headers : Option HeadersProp
  body : Option Body
deriving DecidableEq, Repr

/-- The response `fetch` resolves to, as far as `request` reads it: `contentType` is
`response.headers.get('content-type')` (`none` is `null`), and `body` is the text read
from the body, or the error reading it fails with. -/
structure Response where
  status : Nat
  statusText : String
  contentType : Option String
  body : Except String String

/-- The flag `response.ok`: the status is in the range 200 to 299. -/
def Response.ok (r : Response) : Bool := decide (200 ≤ r.status) && decide (r.status ≤ 299)

/-- An `Error` object, as far as `request` reads it. -/
structure JSError where
  message : String
deriving DecidableEq, Repr

/-- What `request` resolves to: a decoded JSON value or a text. -/
inductive Value (J : Type) where
  | json (v : J)
  | text (s : String)
deriving DecidableEq, Repr

/-- How the promise returned by `request` settles. -/
inductive Outcome (J : Type) where
  | resolved (v : Value J)
  | rejected (e : JSError)
deriving DecidableEq, Repr

/-- The host of `request`: `fetch(url, init)` (an error is a rejected promise) and the JSON
decoder behind `response.json()`. -/
structure Host (J : Type) where
  fetch : String → RequestInit → Except JSError Response
  parseJSON : String → Except JSError J

/-- The default headers of `defaultOptions`. -/
def defaultHeaders : Headers := [("Content-Type", "application/json")]

/-- The object literal `{ headers: { 'Content-Type': 'application/json' }, ...options }`:
the spread copies every own property of `options` over the literal, so a property
`headers` of `options` replaces the default whatever it holds, `undefined` included, and
the default stays only when `options` has no such property. -/
def defaultOptions (options : RequestInit) : RequestInit :=
  { method := options.method,
    headers := match options.headers with
      | some v => some v
      | none => some (HeadersProp.object defaultHeaders),
    body := options.body }

/-- The headers `fetch` sets from its init object: the entries of the headers object, none
when the property `headers` is missing or `undefined` (the Content-Type the browser may
derive from the body is not part of them). -/
def sentHeaders (init : RequestInit) : Headers :=
  match init.headers with
  | some (HeadersProp.object h) => h
  | _ => []

/-- The call `s.includes(sub)` on strings, as lists of characters. -/
def includesChars (sub : List Char) : List Char → Bool
  | [] => sub.isEmpty
  | c :: cs => sub.isPrefixOf (c :: cs) || includesChars sub cs

/-- The condition `contentType && contentType.includes('application/json')`: `null` and
the empty string are falsy. -/
def isJsonContentType (contentType : Option String) : Bool :=
  match contentType with
  | none => false
  | some ct => ct != "" && includesChars "application/json".data ct.data

/-- The call `response.text()`. -/
def Response.text (r : Response) : Except JSError String :=
  match r.body with
  | .ok s => .ok s
  | .error m => .error ⟨m⟩

/-- The call `response.json()`: the body is read, then decoded. -/
def Response.json {J : Type} (host : Host J) (r : Response) : Except JSError J :=
  match r.body with
  | .ok s => host.parseJSON s
  | .error m => .error ⟨m⟩

/-- The `try` block of `request`: a thrown error or rejected `await` is `Except.error`. -/
def requestTry {J : Type} (host : Host J) (url : String) (options : RequestInit) :
    Except JSError (Value J) :=
  match host.fetch url (defaultOptions options) with
  | .error e => .error e
  | .ok response =>
    if !response.ok then
      .error ⟨"HTTP " ++ toString response.status ++ ": " ++ response.statusText⟩
    else if isJsonContentType response.contentType then
      match response.json host with
      | .ok v => .ok (Value.json v)
      | .error e => .error e
    else
      match response.text with
      | .ok t => .ok (Value.text t)
      | .error e => .error e

/-- The function `apiManager.request(url, options)`: how the promise settles and the page
of toasts after it, `page` being the toasts before it. -/
def request {J : Type} (host : Host J) (url : String) (options : RequestInit)
    (page : List utils.Toast) : Outcome J × List utils.Toast :=
  match requestTry host url options with
  | .ok v => (Outcome.resolved v, page)
  | .error error =>
    (Outcome.rejected error, utils.showToast ("Erreur API: " ++ error.message) "error" page)

/-- The function `apiManager.get(url)`. -/
def get {J : Type} (host : Host J) (url : String) (page : List utils.Toast) :
    Outcome J × List utils.Toast :=
  request host url { method := some "GET", headers := none, body := none } page

/-- The function `apiManager.post(url, data)`; `json` is `JSON.stringify(data)`. -/
def post {J : Type} (host : Host J) (url : String) (json : String) (page : List utils.Toast) :
    Outcome J × List utils.Toast :=
  request host url { method := some "POST", headers := none, body := some (Body.text json) } page

/-- The options `postForm` passes to `request`: `headers: {}` leaves the Content-Type to
the browser. -/
def postFormOptions (formData : List (String × String)) : RequestInit :=
  { method := some "POST", headers := some (HeadersProp.object []),
    body := some (Body.formData formData) }

/-- The function `apiManager.postForm(url, formData)`. -/
def postForm {J : Type} (host : Host J) (url : String) (formData : List (String × String))
    (page : List utils.Toast) : Outcome J × List utils.Toast :=
  request host url (postFormOptions formData) page

/-- The value a header has in a headers object, if it has the header. -/
def headerValue (name : String) (h : Headers) : Option String :=
  (h.find? (fun e => e.1 == name)).map Prod.snd

/-- The headers the specification describes: the default set merged with the headers of
the caller, the entry of the caller winning on a header both define. -/
def mergedHeaders (caller : Headers) : Headers :=
  defaultHeaders.filter (fun d => (headerValue d.1 caller).isNone) ++ caller

/-- A host for the examples: `fetch` resolves to the response `r` whatever is asked, and the
decoder knows the one JSON text of the examples, an object with the field `a` at 1. -/
def exampleHost (r : Response) : Host (List (String × Nat)) :=
  { fetch := fun _ _ => .ok r,
    parseJSON := fun s =>
      if s = "\x7b\"a\":1\x7d" then .ok [("a", 1)] else .error ⟨"Unexpected token"⟩ }

/-- A host for the examples whose `fetch` always rejects with a network error. -/
def offlineHost : Host (List (String × Nat)) :=
  { fetch := fun _ _ => .error ⟨"Failed to fetch"⟩,
    parseJSON := fun _ => .error ⟨"Unexpected token"⟩ }

/-- A host for the examples: a server that answers with the Content-Type header of the
request it received, or "none" when the request has none. -/
def echoHost : Host Unit :=
  { fetch := fun _ init =>
      .ok { status := 200, statusText := "OK", contentType := some "text/plain",
            body := .ok ((headerValue "Content-Type" (sentHeaders init)).getD "none") },
    parseJSON := fun _ => .ok () }

end apiManager

end ScriptConverter

open ScriptConverter ScriptConverter.utils ScriptConverter.fileManager ScriptConverter.apiManager

/-! ## Properties of utils.formatFileSize -/

theorem floorLog_eq_log (k : Nat) (hk : 1 < k) :
    ∀ fuel n : Nat, n ≤ fuel → floorLog k fuel n = Nat.log k n := by
  intro fuel
  induction fuel with
  | zero =>
    intro n hn
    have : n = 0 := by omega
    subst this
    simp [floorLog]
  | succ f ih =>
    intro n hn
    unfold floorLog
    split
    · rename_i h
      exact (Nat.log_of_lt h).symm
    · rename_i h
      have hle : k ≤ n := by omega
      have hdiv : n / k ≤ f := by
        have : n / k < n := Nat.div_lt_self (by omega) hk
        omega
      rw [ih _ hdiv, Nat.log_of_one_lt_of_le hk hle]

/-- The index computed by division is the integer logarithm in base 1024. -/
theorem unitIndex_eq_log (b : Nat) : unitIndex b = Nat.log 1024 b :=
  floorLog_eq_log 1024 (by norm_num) b b (le_refl b)

/-- The unit chosen is the largest power of 1024 that is at most the byte count. -/
theorem unitIndex_spec (b : Nat) (hb : 1 ≤ b) :
    1024 ^ unitIndex b ≤ b ∧ b < 1024 ^ (unitIndex b + 1) := by
  rw [unitIndex_eq_log]
  exact ⟨Nat.pow_log_le_self 1024 (by omega), Nat.lt_pow_succ_log_self (by norm_num) b⟩

theorem unitIndex_lt_four (b : Nat) (hb : b < 1024 ^ 4) : unitIndex b < 4 := by
  rw [unitIndex_eq_log]
  rcases Nat.eq_zero_or_pos b with h0 | hpos
  · subst h0; simp
  · exact Nat.log_lt_of_lt_pow (by omega) hb

theorem sizesAt_of_lt (i : Nat) (h : i < 4) : sizesAt i ∈ sizes := by
  interval_cases i <;> decide

/-- The hundredths printed are the quotient rounded to the nearest hundredth, a tie going
up: twice the distance to the quotient is at most one hundredth. -/
theorem toFixed2_nearest (num den : Nat) (hd : 0 < den) :
    2 * (toFixed2 num den * den) ≤ 200 * num + den ∧
      200 * num < 2 * (toFixed2 num den * den) + den := by
  unfold toFixed2
  have h1 := Nat.div_mul_le_self (200 * num + den) (2 * den)
  have h2 := Nat.lt_div_mul_add (a := 200 * num + den) (b := 2 * den) (by omega)
  constructor
  · nlinarith
  · nlinarith

theorem printedHundredths_bounds (b : Nat) (hb : 1 ≤ b) :
    100 ≤ printedHundredths b ∧ printedHundredths b ≤ 102400 := by
  obtain ⟨hlo, hhi⟩ := unitIndex_spec b hb
  have hd : 0 < 1024 ^ unitIndex b := Nat.pos_pow_of_pos _ (by norm_num)
  unfold printedHundredths toFixed2
  rw [pow_succ] at hhi
  constructor
  · rw [Nat.le_div_iff_mul_le (by omega)]
    nlinarith
  · have : (200 * b + 1024 ^ unitIndex b) / (2 * 1024 ^ unitIndex b) < 102401 := by
      rw [Nat.div_lt_iff_lt_mul (by omega)]
      nlinarith
    omega

theorem formatFileSize_of_pos (b : Nat) (hb : 1 ≤ b) :
    formatFileSize b = numberText (printedHundredths b) ++ " " ++ sizesAt (unitIndex b) := by
  unfold formatFileSize
  rw [if_neg (by omega)]

/-- Below one tebibyte the unit printed is one of the four of `sizes`, the largest whose
quotient is at least 1, in front of it the quotient rounded to hundredths. -/
theorem formatFileSize_below_tebibyte (b : Nat) (h1 : 1 ≤ b) (h2 : b < 1024 ^ 4) :
    sizesAt (unitIndex b) ∈ sizes ∧ 1024 ^ unitIndex b ≤ b ∧ b < 1024 ^ (unitIndex b + 1) ∧
      formatFileSize b = numberText (printedHundredths b) ++ " " ++ sizesAt (unitIndex b) :=
  ⟨sizesAt_of_lt _ (unitIndex_lt_four b h2), (unitIndex_spec b h1).1, (unitIndex_spec b h1).2,
    formatFileSize_of_pos b h1⟩

/-- C4, at the failing input: one tebibyte (1024^4 bytes) is a byte count for which the
index computed is 4, past the end of the four units, so the text printed is "1 undefined"
and its unit is none of Bytes, KB, MB, GB; the largest of the four units whose quotient
is at least 1 would be GB. -/
theorem formatFileSize_tebibyte_undefined :
    formatFileSize (1024 ^ 4) = "1 undefined" ∧ unitIndex (1024 ^ 4) = 4 ∧
      sizesAt (unitIndex (1024 ^ 4)) ∉ sizes ∧ sizes.length = 4 ∧
      1024 ^ 3 ≤ 1024 ^ 4 := by
  decide

/-- C5: the formatter gives "0 Bytes" for 0, "1 KB" for 1024, "1.5 KB" for 1536 and
"1 MB" for 1048576, and every exact power 1024^i with i from 0 to 3 is printed as "1 "
followed by the i-th unit, not as "1024" of the unit before. -/
theorem formatFileSize_exact_values :
    formatFileSize 0 = "0 Bytes" ∧ formatFileSize 1024 = "1 KB" ∧
      formatFileSize 1536 = "1.5 KB" ∧ formatFileSize 1048576 = "1 MB" ∧
      (∀ i : Fin 4, formatFileSize (1024 ^ i.val) = "1 " ++ sizes.get i) ∧
      (∀ i : Fin 3, formatFileSize (1024 ^ (i.val + 1)) ≠
        "1024 " ++ sizes.get (Fin.castSucc i)) := by
  decide

/-- C10, as stated, fails at 1048575 bytes: the count is between 1 and 1024^4, the unit
chosen is KB, and the number printed in front of it is 1024.00, so the text is
"1024 KB" although the unit MB is available. -/
theorem formatFileSize_shows_1024 :
    1 ≤ 1048575 ∧ 1048575 < 1024 ^ 4 ∧ formatFileSize 1048575 = "1024 KB" ∧
      ¬ (printedHundredths 1048575 < 102400) ∧ unitIndex 1048575 + 1 < sizes.length := by
  decide

/-- C10, amended: for a byte count b with 1 ≤ b < 1024^4 the quotient b / 1024^i of the
unit chosen is at least 1 and less than 1024, and the number printed, that quotient
rounded to hundredths, is at least 1 and at most 1024; it is 1024 exactly when the
quotient is at least 1023.995. -/
theorem formatFileSize_printed_range (b : Nat) (h1 : 1 ≤ b) (h2 : b < 1024 ^ 4) :
    1024 ^ unitIndex b ≤ b ∧ b < 1024 * 1024 ^ unitIndex b ∧
      100 ≤ printedHundredths b ∧ printedHundredths b ≤ 102400 ∧
      (printedHundredths b = 102400 ↔ 204799 * 1024 ^ unitIndex b ≤ 200 * b) ∧
      formatFileSize b = numberText (printedHundredths b) ++ " " ++ sizesAt (unitIndex b) ∧
      sizesAt (unitIndex b) ∈ sizes := by
  obtain ⟨hlo, hhi⟩ := unitIndex_spec b h1
  obtain ⟨hmin, hmax⟩ := printedHundredths_bounds b h1
  have hd : 0 < 1024 ^ unitIndex b := Nat.pos_pow_of_pos _ (by norm_num)
  rw [pow_succ] at hhi
  refine ⟨hlo, by omega, hmin, hmax, ?_, formatFileSize_of_pos b h1,
    sizesAt_of_lt _ (unitIndex_lt_four b h2)⟩
  have hiff : 102400 ≤ printedHundredths b ↔ 204799 * 1024 ^ unitIndex b ≤ 200 * b := by
    unfold printedHundredths toFixed2
    rw [Nat.le_div_iff_mul_le (by omega)]
    constructor <;> intro h <;> nlinarith
  constructor
  · intro h
    exact hiff.1 (by omega)
  · intro h
    have := hiff.2 h
    omega

/-- C10, amended, at 1048575 bytes: the text is "1024 KB". -/
theorem formatFileSize_printed_range_witness :
    (1 ≤ 1048575 ∧ 1048575 < 1024 ^ 4) ∧ printedHundredths 1048575 ≤ 102400 :=
  ⟨by decide, (formatFileSize_printed_range 1048575 (by decide) (by decide)).2.2.2.1⟩

/-! ## Properties of fileManager.validateFile -/

theorem split_ne_nil (sep : Char) (l : List Char) : split sep l ≠ [] := by
  cases l with
  | nil => simp [split]
  | cons c cs =>
    unfold split
    split
    · simp
    · split <;> simp

theorem split_of_not_mem (sep : Char) (l : List Char) (h : sep ∉ l) : split sep l = [l] := by
  induction l with
  | nil => rfl
  | cons c cs ih =>
    have hc : ¬ c = sep := fun e => h (by simp [e])
    have hcs : sep ∉ cs := fun e => h (List.mem_cons_of_mem _ e)
    unfold split
    rw [if_neg hc, ih hcs]

theorem split_length_of_mem (sep : Char) (l : List Char) (h : sep ∈ l) :
    2 ≤ (split sep l).length := by
  induction l with
  | nil => simp at h
  | cons c cs ih =>
    unfold split
    by_cases hc : c = sep
    · rw [if_pos hc]
      have := List.length_pos.2 (split_ne_nil sep cs)
      simp only [List.length_cons]
      omega
    · rw [if_neg hc]
      have hcs : sep ∈ cs := by
        rcases List.mem_cons.1 h with e | e
        · exact absurd e.symm hc
        · exact e
      have := ih hcs
      cases hs : split sep cs with
      | nil => rw [hs] at this; simp at this
      | cons seg rest =>
        rw [hs] at this
        simpa using this

theorem getLastD_cons_of_ne_nil (x d e : List Char) (xs : List (List Char)) (h : xs ≠ []) :
    (x :: xs).getLastD d = xs.getLastD e := by
  cases xs with
  | nil => exact absurd rfl h
  | cons y ys => rfl

theorem takeWhile_concat_eq (p : Char → Bool) (c : Char) (xs : List Char) :
    (xs ++ [c]).takeWhile p =
      if xs.all p then xs ++ (if p c then [c] else []) else xs.takeWhile p := by
  induction xs with
  | nil => by_cases h : p c <;> simp [List.takeWhile, h]
  | cons x xs ih =>
    by_cases hx : p x
    · simp only [List.cons_append, List.takeWhile_cons, hx, if_true, ih, List.all_cons,
        Bool.true_and]
      split <;> rfl
    · simp [List.takeWhile_cons, hx]

theorem afterLastDot_cons (c : Char) (cs : List Char) :
    afterLastDot (c :: cs) =
      if '.' ∈ cs then afterLastDot cs else if c = '.' then cs else c :: cs := by
  unfold afterLastDot
  rw [List.reverse_cons, takeWhile_concat_eq]
  by_cases hm : '.' ∈ cs
  · have : (cs.reverse.all fun c => c != '.') = false := by
      rw [List.all_eq_false]
      exact ⟨'.', by simpa using hm, by simp⟩
    rw [this, if_pos hm]
    simp
  · have : (cs.reverse.all fun c => c != '.') = true := by
      rw [List.all_eq_true]
      intro x hx
      have hx2 : x ∈ cs := by simpa using hx
      simp only [bne_iff_ne, ne_eq]
      intro e
      exact hm (e ▸ hx2)
    rw [this, if_neg hm]
    by_cases hc : c = '.'
    · simp [hc]
    · simp [hc]

theorem afterLastDot_of_not_mem (cs : List Char) (h : '.' ∉ cs) : afterLastDot cs = cs := by
  induction cs with
  | nil => rfl
  | cons c cs ih =>
    have hc : ¬ c = '.' := fun e => h (by simp [e])
    have hcs : '.' ∉ cs := fun e => h (List.mem_cons_of_mem _ e)
    rw [afterLastDot_cons, if_neg hcs, if_neg hc]

/-- The last segment of `name.split('.')` is the text after the last dot of the name, the
whole name when it has no dot. -/
theorem pop_split_eq_afterLastDot (l : List Char) : pop (split '.' l) = afterLastDot l := by
  induction l with
  | nil => rfl
  | cons c cs ih =>
    rw [afterLastDot_cons]
    unfold pop at ih ⊢
    unfold split
    by_cases hc : c = '.'
    · rw [if_pos hc, getLastD_cons_of_ne_nil _ _ [] _ (split_ne_nil _ _), ih]
      by_cases hm : '.' ∈ cs
      · rw [if_pos hm]
      · rw [if_neg hm, if_pos hc, afterLastDot_of_not_mem cs hm]
    · rw [if_neg hc]
      by_cases hm : '.' ∈ cs
      · rw [if_pos hm]
        have hlen := split_length_of_mem '.' cs hm
        cases hs : split '.' cs with
        | nil => exact absurd hs (split_ne_nil _ _)
        | cons seg rest =>
          rw [hs] at hlen ih
          have hrest : rest ≠ [] := by
            intro e
            rw [e] at hlen
            simp at hlen
          simp only []
          rw [getLastD_cons_of_ne_nil _ _ [] _ hrest, ← ih,
            getLastD_cons_of_ne_nil _ _ [] _ hrest]
      · rw [if_neg hm, if_neg hc, split_of_not_mem '.' cs hm]
        rfl

/-- A capital ASCII letter is one of the 26 characters with codes 65 to 90. -/
theorem upper_cases (c : Char) (h : c.isUpper = true) :
    ∃ n, 65 ≤ n ∧ n ≤ 90 ∧ c = Char.ofNat n := by
  simp only [Char.isUpper, Bool.and_eq_true, decide_eq_true_eq] at h
  exact ⟨c.toNat, h.1, h.2, (Char.ofNat_toNat c).symm⟩

theorem upper_facts (c : Char) (h : c.isUpper = true) :
    c.val < 128 ∧ c.toLower.val < 128 ∧ c.toLower.toLower = c.toLower ∧
      c ≠ '.' ∧ c.toLower ≠ '.' := by
  obtain ⟨n, h1, h2, rfl⟩ := upper_cases c h
  interval_cases n <;> decide

theorem sameLetter_cases (a b : Char) (h : sameLetter a b = true) :
    a = b ∨ (a.isUpper = true ∧ b = a.toLower) ∨ (b.isUpper = true ∧ a = b.toLower) := by
  simpa [sameLetter, or_assoc] using h

theorem lowerChar_upper (uni : Char → Char) (c : Char) (h : c.isUpper = true) :
    lowerChar uni c.toLower = lowerChar uni c := by
  obtain ⟨h1, h2, h3, -, -⟩ := upper_facts c h
  unfold lowerChar
  rw [if_pos h1, if_pos h2, h3]

theorem lowerChar_of_sameLetter (uni : Char → Char) (a b : Char)
    (h : sameLetter a b = true) : lowerChar uni a = lowerChar uni b := by
  rcases sameLetter_cases a b h with e | ⟨hu, e⟩ | ⟨hu, e⟩
  · rw [e]
  · rw [e, lowerChar_upper uni a hu]
  · rw [e, lowerChar_upper uni b hu]

theorem sameLetter_dot (a b : Char) (h : sameLetter a b = true) : a = '.' ↔ b = '.' := by
  rcases sameLetter_cases a b h with e | ⟨hu, e⟩ | ⟨hu, e⟩
  · rw [e]
  · obtain ⟨-, -, -, h4, h5⟩ := upper_facts a hu
    rw [e]
    exact ⟨fun x => absurd x h4, fun x => absurd x h5⟩
  · obtain ⟨-, -, -, h4, h5⟩ := upper_facts b hu
    rw [e]
    exact ⟨fun x => absurd x h5, fun x => absurd x h4⟩

theorem sameUpToAsciiCase_iff (l m : List Char) :
    sameUpToAsciiCase l m = true ↔ List.Forall₂ (fun a b => sameLetter a b = true) l m := by
  induction l generalizing m with
  | nil => cases m <;> simp [sameUpToAsciiCase]
  | cons a as ih => cases m <;> simp [sameUpToAsciiCase, ih]

theorem split_sameLetter (l m : List Char)
    (h : List.Forall₂ (fun a b => sameLetter a b = true) l m) :
    List.Forall₂ (List.Forall₂ (fun a b => sameLetter a b = true))
      (split '.' l) (split '.' m) := by
  induction h with
  | nil => exact List.Forall₂.cons List.Forall₂.nil List.Forall₂.nil
  | @cons a b as bs hab _ ih =>
    have hdot := sameLetter_dot a b hab
    unfold split
    by_cases ha : a = '.'
    · rw [if_pos ha, if_pos (hdot.1 ha)]
      exact List.Forall₂.cons List.Forall₂.nil ih
    · rw [if_neg ha, if_neg (fun e => ha (hdot.2 e))]
      generalize split '.' as = sa at ih
      generalize split '.' bs = sb at ih
      cases ih with
      | nil => exact List.Forall₂.cons (List.Forall₂.cons hab List.Forall₂.nil) List.Forall₂.nil
      | cons hseg hrest => exact List.Forall₂.cons (List.Forall₂.cons hab hseg) hrest

theorem getLastD_forall₂ {R : List Char → List Char → Prop} (xs ys : List (List Char))
    (h : List.Forall₂ R xs ys) : ∀ d e, R d e → R (xs.getLastD d) (ys.getLastD e) := by
  induction h with
  | nil => intro d e hde; exact hde
  | cons hxy _ ih =>
    intro d e _
    rw [List.getLastD_cons, List.getLastD_cons]
    exact ih _ _ hxy

theorem toLowerCase_of_sameLetter (uni : Char → Char) (l m : List Char)
    (h : List.Forall₂ (fun a b => sameLetter a b = true) l m) :
    toLowerCase uni l = toLowerCase uni m := by
  unfold toLowerCase
  induction h with
  | nil => rfl
  | cons hab _ ih => rw [List.map_cons, List.map_cons, ih, lowerChar_of_sameLetter uni _ _ hab]

/-- Names that differ only in the case of ASCII letters have the same extension. -/
theorem extensionOf_of_sameUpToAsciiCase (uni : Char → Char) (n m : String)
    (h : sameUpToAsciiCase n.data m.data = true) : extensionOf uni n = extensionOf uni m := by
  unfold extensionOf
  have h1 := split_sameLetter _ _ ((sameUpToAsciiCase_iff _ _).1 h)
  have h2 := getLastD_forall₂ _ _ h1 [] [] List.Forall₂.nil
  unfold pop
  rw [toLowerCase_of_sameLetter uni _ _ h2]

/-- C1: `validateFile` is the decision procedure of the specification, the checks in its
order: a missing file is "Aucun fichier sélectionné" whatever the limits; else a size over
`maxSize` is the "Fichier trop volumineux" error with the formatted limit, also when the
extension is not allowed; else an extension (a dot and the lowercased text after the last
dot of the name, the whole name when it has no dot) outside `allowedTypes` is the "Type de
fichier non autorisé" error with the types joined by ", "; else the result is valid with
no error. A file whose size is exactly `maxSize` gets the outcome of the extension check
alone. -/
theorem validateFile_eq_spec (uni : Char → Char) (maxSize : Nat) (allowedTypes : List String) :
    (∀ file : Option File,
      validateFile uni file maxSize allowedTypes =
        validateFileSpec uni file maxSize allowedTypes) ∧
    (∀ ms ts, validateFile uni none ms ts = ⟨false, some "Aucun fichier sélectionné"⟩) ∧
    (∀ name : String,
      validateFile uni (some ⟨name, maxSize⟩) maxSize allowedTypes =
        if extensionOf uni name ∈ allowedTypes then ⟨true, none⟩
        else ⟨false, some ("Type de fichier non autorisé (" ++
          ", ".intercalate allowedTypes ++ ")")⟩) := by
  refine ⟨?_, fun _ _ => rfl, ?_⟩
  · intro file
    cases file with
    | none => rfl
    | some f =>
      unfold validateFile validateFileSpec
      simp only [Option.isNone_some, Bool.false_eq_true, if_false, Option.map_some',
        Option.getD_some]
      by_cases hs : f.size > maxSize
      · rw [if_pos hs, if_pos hs]
      · rw [if_neg hs, if_neg hs]
        simp only [extensionOf, pop_split_eq_afterLastDot, includes, join]
        by_cases hm : ("." ++ String.mk (toLowerCase uni (afterLastDot f.name.data)))
            ∈ allowedTypes
        · simp [hm]
        · simp [hm]
  · intro name
    unfold validateFile
    simp only [gt_iff_lt, lt_irrefl, if_false, includes, join]
    by_cases hm : extensionOf uni name ∈ allowedTypes
    · simp [hm]
    · simp [hm]

theorem extensionOf_a_PY (uni : Char → Char) : extensionOf uni "a.PY" = ".py" := rfl

theorem extensionOf_a_txt (uni : Char → Char) : extensionOf uni "a.txt" = ".txt" := rfl

/-- C2: the extension check is case-insensitive. For every `maxSize` and `allowedTypes`,
two files of the same size whose names differ only in the case of ASCII letters get the
same result, and a file named "a.PY" whose size is within the default limit is valid
under the defaults. -/
theorem validateFile_case_insensitive (uni : Char → Char) (maxSize : Nat)
    (allowedTypes : List String) (f g : File) (size : Nat)
    (hsize : f.size = g.size) (hname : sameUpToAsciiCase f.name.data g.name.data = true)
    (hlimit : size ≤ defaultMaxSize) :
    validateFile uni (some f) maxSize allowedTypes =
        validateFile uni (some g) maxSize allowedTypes ∧
      validateFileDefault uni (some ⟨"a.PY", size⟩) = ⟨true, none⟩ := by
  constructor
  · unfold validateFile
    simp only [hsize, extensionOf_of_sameUpToAsciiCase uni f.name g.name hname]
  · unfold validateFileDefault validateFile
    simp only [gt_iff_lt, not_lt.2 hlimit, if_false, extensionOf_a_PY]
    rfl

/-- C2 on the files "Main.Py" and "mAIN.pY" of 10 bytes, with the limit at 100 bytes. -/
theorem validateFile_case_insensitive_witness :
    validateFile id (some ⟨"Main.Py", 10⟩) 100 [".py"] =
        validateFile id (some ⟨"mAIN.pY", 10⟩) 100 [".py"] ∧
      validateFileDefault id (some ⟨"a.PY", 52428800⟩) = ⟨true, none⟩ :=
  validateFile_case_insensitive id 100 [".py"] ⟨"Main.Py", 10⟩ ⟨"mAIN.pY", 10⟩ 52428800
    (by decide) (by decide) (by decide)

/-- C3: under the defaults every file larger than 50 MiB (52428800 bytes), whatever its
name, is invalid with the error "Fichier trop volumineux (max 50 MB)", a text that
contains "50" and "MB"; and a file named "a.txt" within the limit is invalid with an
error that lists the allowed extensions as ".py, .pyw". -/
theorem validateFile_default_limits (uni : Char → Char) (f : File) (size : Nat)
    (hbig : f.size > 52428800) (hsmall : size ≤ 52428800) :
    validateFileDefault uni (some f) = ⟨false, some "Fichier trop volumineux (max 50 MB)"⟩ ∧
      "50".data <:+: "Fichier trop volumineux (max 50 MB)".data ∧
      "MB".data <:+: "Fichier trop volumineux (max 50 MB)".data ∧
      validateFileDefault uni (some ⟨"a.txt", size⟩) =
        ⟨false, some "Type de fichier non autorisé (.py, .pyw)"⟩ ∧
      ".py, .pyw".data <:+: "Type de fichier non autorisé (.py, .pyw)".data := by
  refine ⟨?_, ⟨"Fichier trop volumineux (max ".data, " MB)".data, rfl⟩,
    ⟨"Fichier trop volumineux (max 50 ".data, ")".data, rfl⟩, ?_,
    ⟨"Type de fichier non autorisé (".data, ")".data, rfl⟩⟩
  · unfold validateFileDefault validateFile
    have h : f.size > defaultMaxSize := hbig
    simp only [h, if_true]
    rfl
  · unfold validateFileDefault validateFile
    have h : ¬ size > defaultMaxSize := not_lt.2 hsmall
    simp only [h, if_false, extensionOf_a_txt]
    rfl

/-- C3 on a file of 60 MiB named "big.py" and a file "a.txt" of 10 bytes. -/
theorem validateFile_default_limits_witness :
    validateFileDefault id (some ⟨"big.py", 60 * 1024 * 1024⟩) =
        ⟨false, some "Fichier trop volumineux (max 50 MB)"⟩ ∧
      validateFileDefault id (some ⟨"a.txt", 10⟩) =
        ⟨false, some "Type de fichier non autorisé (.py, .pyw)"⟩ :=
  have h := validateFile_default_limits id ⟨"big.py", 60 * 1024 * 1024⟩ 10
    (by decide) (by decide)
  ⟨h.1, h.2.2.2.1⟩

/-! ## Properties of utils.debounce -/

theorem invoke_of_no_timer {α : Type} (s : Debounced α) (t : Nat) (a : α)
    (h : s.timers = []) :
    (step s (.invoke t a)).timers = [⟨s.nextId, t + s.wait, a⟩] ∧
      (step s (.invoke t a)).timeout = some s.nextId ∧
      (step s (.invoke t a)).calls = s.calls ∧ (step s (.invoke t a)).wait = s.wait := by
  unfold step executedFunction setTimeout clearTimeout
  cases hto : s.timeout <;> simp [h]

theorem invoke_of_pending {α : Type} (s : Debounced α) (t : Nat) (a : α) (id d : Nat) (x : α)
    (h : s.timers = [⟨id, d, x⟩]) (hto : s.timeout = some id) :
    (step s (.invoke t a)).timers = [⟨s.nextId, t + s.wait, a⟩] ∧
      (step s (.invoke t a)).timeout = some s.nextId ∧
      (step s (.invoke t a)).calls = s.calls ∧ (step s (.invoke t a)).wait = s.wait := by
  unfold step executedFunction setTimeout clearTimeout
  simp [h, hto]

theorem tick_of_no_timer {α : Type} (s : Debounced α) (t : Nat) (h : s.timers = []) :
    step s (.tick t) = s := by
  unfold step tick
  rw [h]
  rfl

theorem tick_of_not_due {α : Type} (s : Debounced α) (t : Nat) (id d : Nat) (x : α)
    (h : s.timers = [⟨id, d, x⟩]) (hd : ¬ d ≤ t) : step s (.tick t) = s := by
  unfold step tick
  rw [h]
  simp [runTimers, nextDue, h, hd]

theorem tick_of_due {α : Type} (s : Debounced α) (t : Nat) (id d : Nat) (x : α)
    (h : s.timers = [⟨id, d, x⟩]) (hto : s.timeout = some id) (hd : d ≤ t) :
    (step s (.tick t)).timers = [] ∧ (step s (.tick t)).calls = s.calls ++ [(t, x)] ∧
      (step s (.tick t)).wait = s.wait := by
  unfold step tick
  rw [h]
  simp [runTimers, nextDue, h, hd, later, clearTimeout, hto]

theorem find_concat_of_none (p : Nat → Bool) (ticks : List Nat) (t : Nat)
    (h : ticks.find? p = none) :
    (ticks ++ [t]).find? p = if p t then some t else none := by
  rw [List.find?_append, h]
  by_cases hp : p t <;> simp [hp]

theorem find_concat_of_some (p : Nat → Bool) (ticks : List Nat) (t u : Nat)
    (h : ticks.find? p = some u) : (ticks ++ [t]).find? p = some u := by
  rw [List.find?_append, h]
  rfl

/-- The invariant of a burst is kept by every event of the burst. -/
theorem burstInv_run {α : Type} (w : Nat) :
    ∀ (es : List (Event α)) (s : Debounced α) (acc : Option ((Nat × α) × List Nat))
      (prev : Option Nat) (now : Nat),
      BurstInv w s acc prev now → isBurst w prev now es = true →
      ∃ prev2 now2, BurstInv w (run es s) (lastInvoke acc es) prev2 now2 := by
  intro es
  induction es with
  | nil =>
    intro s acc prev now h _
    have hlast : lastInvoke acc ([] : List (Event α)) = acc := by cases acc <;> rfl
    rw [hlast]
    exact ⟨prev, now, h⟩
  | cons e es ih =>
    intro s acc prev now h hb
    cases e with
    | invoke t a =>
      have hrun : run (.invoke t a :: es) s = run es (step s (.invoke t a)) := rfl
      have hlast : lastInvoke acc (.invoke t a :: es) = lastInvoke (some ((t, a), [])) es := by
        cases acc <;> rfl
      rw [hrun, hlast]
      cases acc with
      | none =>
        obtain ⟨hp, hw, ht, hc⟩ := h
        subst hp
        simp only [isBurst, Bool.and_eq_true, decide_eq_true_eq] at hb
        obtain ⟨h1, h2, h3, h4⟩ := invoke_of_no_timer s t a ht
        refine ih _ _ (some t) t ?_ hb.2
        refine ⟨rfl, by rw [h4, hw], ?_⟩
        simp only [List.find?_nil]
        exact ⟨by rw [h3, hc], s.nextId, by rw [h1, hw], h2⟩
      | some v =>
        obtain ⟨⟨tn, an⟩, ticks⟩ := v
        obtain ⟨hp, hw, hm⟩ := h
        subst hp
        simp only [isBurst, Bool.and_eq_true, decide_eq_true_eq] at hb
        obtain ⟨⟨hnow, hlt⟩, hrest⟩ := hb
        refine ih _ _ (some t) t ?_ hrest
        cases hf : ticks.find? (fun t => decide (tn + w ≤ t)) with
        | none =>
          rw [hf] at hm
          obtain ⟨hc, id, htm, hto⟩ := hm
          obtain ⟨h1, h2, h3, h4⟩ := invoke_of_pending s t a id _ _ htm hto
          refine ⟨rfl, by rw [h4, hw], ?_⟩
          simp only [List.find?_nil]
          exact ⟨by rw [h3, hc], s.nextId, by rw [h1, hw], h2⟩
        | some u =>
          rw [hf] at hm
          obtain ⟨hu, hdue, -, -⟩ := hm
          omega
    | tick t =>
      have hrun : run (.tick t :: es) s = run es (step s (.tick t)) := rfl
      rw [hrun]
      cases acc with
      | none =>
        obtain ⟨hp, hw, ht, hc⟩ := h
        subst hp
        simp only [isBurst, Bool.and_eq_true, decide_eq_true_eq] at hb
        have hlast : lastInvoke none (.tick t :: es) = lastInvoke (none : Option ((Nat × α) × List Nat)) es := rfl
        rw [hlast, tick_of_no_timer s t ht]
        exact ih _ _ none t ⟨rfl, hw, ht, hc⟩ hb.2
      | some v =>
        obtain ⟨⟨tn, an⟩, ticks⟩ := v
        obtain ⟨hp, hw, hm⟩ := h
        subst hp
        simp only [isBurst, Bool.and_eq_true, decide_eq_true_eq] at hb
        obtain ⟨hnow, hrest⟩ := hb
        have hlast : lastInvoke (some ((tn, an), ticks)) (.tick t :: es) =
            lastInvoke (some ((tn, an), ticks ++ [t])) es := rfl
        rw [hlast]
        refine ih _ _ (some tn) t ?_ hrest
        cases hf : ticks.find? (fun t => decide (tn + w ≤ t)) with
        | none =>
          rw [hf] at hm
          obtain ⟨hc, id, htm, hto⟩ := hm
          by_cases hd : tn + w ≤ t
          · obtain ⟨h1, h2, h3⟩ := tick_of_due s t id _ _ htm hto hd
            refine ⟨rfl, by rw [h3, hw], ?_⟩
            rw [find_concat_of_none _ _ _ hf]
            rw [if_pos (decide_eq_true hd)]
            exact ⟨le_refl t, hd, by rw [h2, hc]; rfl, h1⟩
          · rw [tick_of_not_due s t id _ _ htm hd]
            refine ⟨rfl, hw, ?_⟩
            rw [find_concat_of_none _ _ _ hf]
            rw [if_neg (by simpa using hd)]
            exact ⟨hc, id, htm, hto⟩
        | some u =>
          rw [hf] at hm
          obtain ⟨hu, hdue, hc, htm⟩ := hm
          rw [tick_of_no_timer s t htm]
          refine ⟨rfl, hw, ?_⟩
          rw [find_concat_of_some _ _ _ _ hf]
          exact ⟨le_trans hu hnow, hdue, hc, htm⟩

/-- C6: for every wait `w` and every burst of invocations of the function returned by
`debounce(func, w)`, each less than `w` after the one before, with `tn` and `an` the time
and arguments of the last one: `func` is called at most once, not before `tn + w`, with
the arguments `an`; it has been called exactly once as soon as the event loop has taken a
turn at `tn + w` or later, and then no timer is left; until then it has not been called
and the only timer pending is the one of the last invocation; and the returned function
gives its caller no value. -/
theorem debounce_burst_calls_once {α : Type} (w : Nat) (es : List (Event α)) (tn : Nat)
    (an : α) (ticks : List Nat) (hb : isBurst w none 0 es = true)
    (hl : lastInvoke none es = some ((tn, an), ticks)) :
    (run es (debounce w)).calls = expectedCalls w tn an ticks ∧
      (run es (debounce w)).calls.length ≤ 1 ∧
      (∀ c ∈ (run es (debounce w)).calls, tn + w ≤ c.1 ∧ c.2 = an) ∧
      ((∃ t ∈ ticks, tn + w ≤ t) →
        ∃ u, tn + w ≤ u ∧ (run es (debounce w)).calls = [(u, an)] ∧
          (run es (debounce w)).timers = []) ∧
      ((∀ t ∈ ticks, t < tn + w) →
        (run es (debounce w)).calls = [] ∧
          ∃ id, (run es (debounce w)).timers = [⟨id, tn + w, an⟩]) ∧
      (∀ (t : Nat) (a : α) (s : Debounced α), (executedFunction t a s).2 = ()) := by
  obtain ⟨prev2, now2, hinv⟩ :=
    burstInv_run w es (debounce w) none none 0 ⟨rfl, rfl, rfl, rfl⟩ hb
  rw [hl] at hinv
  obtain ⟨-, -, hm⟩ := hinv
  unfold expectedCalls
  cases hf : ticks.find? (fun t => decide (tn + w ≤ t)) with
  | none =>
    rw [hf] at hm
    obtain ⟨hc, id, htm, -⟩ := hm
    have hnone := List.find?_eq_none.1 hf
    refine ⟨hc, by rw [hc]; simp, by rw [hc]; simp, ?_, fun _ => ⟨hc, id, htm⟩, fun _ _ _ => rfl⟩
    rintro ⟨t, ht, hdue⟩
    exact absurd (decide_eq_true hdue) (hnone t ht)
  | some u =>
    rw [hf] at hm
    obtain ⟨-, hdue, hc, htm⟩ := hm
    refine ⟨hc, by rw [hc]; simp, ?_, fun _ => ⟨u, hdue, hc, htm⟩, ?_, fun _ _ _ => rfl⟩
    · intro c hcm
      rw [hc] at hcm
      simp only [List.mem_singleton] at hcm
      rw [hcm]
      exact ⟨hdue, rfl⟩
    · intro hall
      have hu := List.mem_of_find?_eq_some hf
      have := hall u hu
      omega

/-- C6 on a burst of three invocations, 7 and 5 ms apart with a wait of 10 ms: the only
call is the one of the third invocation, at the first turn of the event loop from 22 ms
on. -/
theorem debounce_burst_calls_once_witness :
    isBurst 10 none 0 [Event.invoke 0 'a', .tick 5, .invoke 7 'b', .tick 10, .invoke 12 'c',
        .tick 21, .tick 23, .tick 30] = true ∧
      (run [Event.invoke 0 'a', .tick 5, .invoke 7 'b', .tick 10, .invoke 12 'c',
        .tick 21, .tick 23, .tick 30] (debounce 10)).calls = [(23, 'c')] :=
  ⟨by decide,
    (debounce_burst_calls_once 10 [Event.invoke 0 'a', .tick 5, .invoke 7 'b', .tick 10,
      .invoke 12 'c', .tick 21, .tick 23, .tick 30] 12 'c' [21, 23, 30]
      (by decide) (by decide)).1.trans (by decide)⟩

/-! ## Properties of apiManager.request -/

/-- The embedding of `includes` is the infix relation on lists of characters. -/
theorem includesChars_iff (sub s : List Char) : includesChars sub s = true ↔ sub <:+: s := by
  induction s with
  | nil => cases sub <;> simp [includesChars]
  | cons c cs ih =>
    unfold includesChars
    rw [Bool.or_eq_true, ih, List.isPrefixOf_iff_prefix, List.infix_cons_iff]

theorem isJsonContentType_iff (contentType : Option String) :
    isJsonContentType contentType = true ↔
      ∃ ct, contentType = some ct ∧ "application/json".data <:+: ct.data := by
  cases contentType with
  | none => simp [isJsonContentType]
  | some ct =>
    unfold isJsonContentType
    simp only [Bool.and_eq_true, bne_iff_ne, ne_eq, includesChars_iff, Option.some.injEq,
      exists_eq_left']
    constructor
    · exact fun h => h.2
    · intro h
      refine ⟨?_, h⟩
      intro e
      rw [e] at h
      have := List.IsInfix.length_le h
      simp at this

/-- C7: the outcome of `request` is fixed by the response. A response that is not ok
(status outside 200 to 299) rejects with the error "HTTP <status>: <statusText>", whatever
the body and the decoder are, so a 404 rejects with a message that contains "404"; an ok
response whose content-type header contains "application/json" resolves to the decoded
JSON body; any other ok response, one without a content-type header included, resolves to
the body as text. -/
theorem request_outcome {J : Type} (host : Host J) (url : String) (options : RequestInit)
    (page : List Toast) (response : Response)
    (hfetch : host.fetch url (defaultOptions options) = .ok response) :
    (response.ok = false →
      (request host url options page).1 =
        .rejected ⟨"HTTP " ++ toString response.status ++ ": " ++ response.statusText⟩) ∧
    (response.status = 404 →
      ∃ e, (request host url options page).1 = .rejected e ∧
        "404".data <:+: e.message.data) ∧
    (response.ok = true →
      (∃ ct, response.contentType = some ct ∧ "application/json".data <:+: ct.data) →
      ∀ b v, response.body = .ok b → host.parseJSON b = .ok v →
        (request host url options page).1 = .resolved (.json v)) ∧
    (response.ok = true →
      ¬ (∃ ct, response.contentType = some ct ∧ "application/json".data <:+: ct.data) →
      ∀ b, response.body = .ok b →
        (request host url options page).1 = .resolved (.text b)) := by
  have hnot : response.ok = false →
      (request host url options page).1 =
        .rejected ⟨"HTTP " ++ toString response.status ++ ": " ++ response.statusText⟩ := by
    intro hok
    unfold request requestTry
    rw [hfetch]
    simp [hok]
  refine ⟨hnot, ?_, ?_, ?_⟩
  · intro h404
    have hok : response.ok = false := by
      unfold Response.ok
      rw [h404]
      decide
    refine ⟨_, hnot hok, ?_⟩
    rw [h404]
    exact ⟨"HTTP ".data, (": " ++ response.statusText).data, by
      simp [String.data_append]; rfl⟩
  · intro hok hct b v hb hv
    have hj := (isJsonContentType_iff response.contentType).2 hct
    unfold request requestTry
    rw [hfetch]
    simp [hok, hj, Response.json, hb, hv]
  · intro hok hct b hb
    have hj : isJsonContentType response.contentType = false := by
      rw [← Bool.not_eq_true]
      exact fun h => hct ((isJsonContentType_iff _).1 h)
    unfold request requestTry
    rw [hfetch]
    simp [hok, hj, Response.text, hb]

/-- C7 on the three responses of the specification: a 404, a JSON body with the field `a`
at 1, and the plain text "hello". -/
theorem request_outcome_witness :
    (request (exampleHost ⟨404, "Not Found", some "text/html", .ok "gone"⟩) "/api"
        ⟨some "GET", none, none⟩ []).1 = .rejected ⟨"HTTP 404: Not Found"⟩ ∧
      (request (exampleHost ⟨200, "OK", some "application/json", .ok "\x7b\"a\":1\x7d"⟩) "/api"
        ⟨some "GET", none, none⟩ []).1 = .resolved (.json [("a", 1)]) ∧
      (request (exampleHost ⟨200, "OK", some "text/plain", .ok "hello"⟩) "/api"
        ⟨some "GET", none, none⟩ []).1 = .resolved (.text "hello") :=
  ⟨(request_outcome (exampleHost ⟨404, "Not Found", some "text/html", .ok "gone"⟩) "/api"
      ⟨some "GET", none, none⟩ [] ⟨404, "Not Found", some "text/html", .ok "gone"⟩ rfl).1 rfl,
    (request_outcome (exampleHost ⟨200, "OK", some "application/json", .ok "\x7b\"a\":1\x7d"⟩)
      "/api" ⟨some "GET", none, none⟩ []
      ⟨200, "OK", some "application/json", .ok "\x7b\"a\":1\x7d"⟩ rfl).2.2.1 rfl
      ⟨"application/json", rfl, List.infix_refl _⟩ "\x7b\"a\":1\x7d" [("a", 1)] rfl rfl,
    (request_outcome (exampleHost ⟨200, "OK", some "text/plain", .ok "hello"⟩) "/api"
      ⟨some "GET", none, none⟩ [] ⟨200, "OK", some "text/plain", .ok "hello"⟩ rfl).2.2.2 rfl
      (fun h => absurd ((isJsonContentType_iff (some "text/plain")).2 h) (by decide))
      "hello" rfl⟩

theorem mergedHeaders_of_contentType (h : Headers) (v : String)
    (hv : headerValue "Content-Type" h = some v) : mergedHeaders h = h := by
  unfold mergedHeaders defaultHeaders
  simp [List.filter, hv]

/-- C8, as stated, fails for a caller that supplies only the header `X-Token`: the headers
of the request issued are that header alone, without the default Content-Type that the
merge of the claim would add, and a server that echoes the Content-Type it received
answers that it received none; the same holds of `headers: undefined` and of the empty
headers object of `postForm`. -/
theorem request_headers_not_merged :
    (defaultOptions ⟨some "POST", some (.object [("X-Token", "abc")]), none⟩).headers =
        some (.object [("X-Token", "abc")]) ∧
      mergedHeaders [("X-Token", "abc")] =
        [("Content-Type", "application/json"), ("X-Token", "abc")] ∧
      headerValue "Content-Type"
        (sentHeaders (defaultOptions ⟨some "POST", some (.object [("X-Token", "abc")]), none⟩)) =
        none ∧
      (request echoHost "/api" ⟨some "POST", some (.object [("X-Token", "abc")]), none⟩ []).1 =
        .resolved (.text "none") ∧
      (request echoHost "/api" ⟨some "GET", some .undefined, none⟩ []).1 =
        .resolved (.text "none") ∧
      sentHeaders (defaultOptions (postFormOptions [("file", "a.py")])) = [] := by
  decide

/-- C8, amended: the options of the request issued are the options of the caller with one
default filled in. When the options object has a property `headers`, that property
replaces the default whole, whatever it holds: a headers object is sent as it is, without
the default Content-Type unless it has its own (there the headers are the merge of the
claim), an empty one sends no header, and `undefined` sends no header either. Only an
options object with no property `headers` sends the default set, its one Content-Type
alone. The method and the body are those of the caller, and `request` depends on `fetch`
only at the target with these options. -/
theorem request_headers_replace (options : RequestInit) :
    (defaultOptions options).method = options.method ∧
      (defaultOptions options).body = options.body ∧
      (defaultOptions options).headers =
        some (options.headers.getD (HeadersProp.object defaultHeaders)) ∧
      (options.headers = none → sentHeaders (defaultOptions options) = defaultHeaders) ∧
      (∀ v, options.headers = some v → (defaultOptions options).headers = some v) ∧
      (options.headers = some HeadersProp.undefined →
        sentHeaders (defaultOptions options) = []) ∧
      (∀ h, options.headers = some (HeadersProp.object h) →
        sentHeaders (defaultOptions options) = h) ∧
      (∀ h, options.headers = some (HeadersProp.object h) →
        headerValue "Content-Type" h = none →
        headerValue "Content-Type" (sentHeaders (defaultOptions options)) = none) ∧
      (∀ h v, options.headers = some (HeadersProp.object h) →
        headerValue "Content-Type" h = some v →
        sentHeaders (defaultOptions options) = mergedHeaders h ∧
          headerValue "Content-Type" (sentHeaders (defaultOptions options)) = some v) ∧
      (∀ (J : Type) (host other : Host J) (url : String) (page : List Toast),
        host.parseJSON = other.parseJSON →
        host.fetch url (defaultOptions options) = other.fetch url (defaultOptions options) →
        request host url options page = request other url options page) := by
  refine ⟨rfl, rfl, ?_, ?_, ?_, ?_, ?_, ?_, ?_, ?_⟩
  · unfold defaultOptions
    cases options.headers <;> rfl
  · intro h
    unfold sentHeaders defaultOptions
    rw [h]
  · intro v hv
    unfold defaultOptions
    rw [hv]
  · intro h
    unfold sentHeaders defaultOptions
    rw [h]
  · intro h hh
    unfold sentHeaders defaultOptions
    rw [hh]
  · intro h hh hv
    unfold sentHeaders defaultOptions
    rw [hh]
    exact hv
  · intro h v hh hv
    unfold sentHeaders defaultOptions
    rw [hh, mergedHeaders_of_contentType h v hv]
    exact ⟨rfl, hv⟩
  · intro J host other url page hp hf
    unfold request requestTry Response.json
    rw [hf, hp]

/-- C8, amended, on a caller with only an `X-Token` header, on `headers: undefined`, on a
caller with its own Content-Type and on a caller without a property `headers`. -/
theorem request_headers_replace_witness :
    headerValue "Content-Type"
        (sentHeaders (defaultOptions ⟨some "POST", some (.object [("X-Token", "abc")]), none⟩)) =
        none ∧
      sentHeaders (defaultOptions ⟨some "GET", some .undefined, none⟩) = [] ∧
      sentHeaders (defaultOptions
        ⟨some "POST", some (.object [("Content-Type", "text/csv")]), none⟩) =
        mergedHeaders [("Content-Type", "text/csv")] ∧
      sentHeaders (defaultOptions ⟨some "GET", none, none⟩) =
        [("Content-Type", "application/json")] :=
  ⟨(request_headers_replace ⟨some "POST", some (.object [("X-Token", "abc")]), none⟩).2.2.2.2.2.2.2.1
      [("X-Token", "abc")] rfl (by decide),
    (request_headers_replace ⟨some "GET", some .undefined, none⟩).2.2.2.2.2.1 rfl,
    ((request_headers_replace
      ⟨some "POST", some (.object [("Content-Type", "text/csv")]), none⟩).2.2.2.2.2.2.2.2.1
      [("Content-Type", "text/csv")] "text/csv" rfl (by decide)).1,
    (request_headers_replace ⟨some "GET", none, none⟩).2.2.2.1 rfl⟩

/-- C9: a call of `request` either resolves and shows no toast, or rejects and shows
exactly one toast, of type "error" with the text "Erreur API: " followed by the message of
the error it rejects with; and every failure rejects with its own error: a `fetch` that
fails, a response that is not ok, a JSON body that cannot be decoded, a text body that
cannot be read. -/
theorem request_failure_toast {J : Type} (host : Host J) (url : String)
    (options : RequestInit) (page : List Toast) :
    ((∃ v, request host url options page = (.resolved v, page)) ∨
      (∃ e, request host url options page =
        (.rejected e, page ++ [⟨"Erreur API: " ++ e.message, "error"⟩]))) ∧
    (∀ e, host.fetch url (defaultOptions options) = .error e →
      request host url options page =
        (.rejected e, page ++ [⟨"Erreur API: " ++ e.message, "error"⟩])) ∧
    (∀ r, host.fetch url (defaultOptions options) = .ok r → r.ok = false →
      request host url options page =
        (.rejected ⟨"HTTP " ++ toString r.status ++ ": " ++ r.statusText⟩,
          page ++ [⟨"Erreur API: " ++ ("HTTP " ++ toString r.status ++ ": " ++ r.statusText),
            "error"⟩])) ∧
    (∀ r e, host.fetch url (defaultOptions options) = .ok r → r.ok = true →
      isJsonContentType r.contentType = true → r.json host = .error e →
      request host url options page =
        (.rejected e, page ++ [⟨"Erreur API: " ++ e.message, "error"⟩])) ∧
    (∀ r e, host.fetch url (defaultOptions options) = .ok r → r.ok = true →
      isJsonContentType r.contentType = false → r.text = .error e →
      request host url options page =
        (.rejected e, page ++ [⟨"Erreur API: " ++ e.message, "error"⟩])) := by
  refine ⟨?_, ?_, ?_, ?_, ?_⟩
  · unfold request
    cases requestTry host url options with
    | ok v => exact Or.inl ⟨v, rfl⟩
    | error e => exact Or.inr ⟨e, rfl⟩
  · intro e hf
    unfold request requestTry
    rw [hf]
    rfl
  · intro r hf hok
    unfold request requestTry
    rw [hf]
    simp [hok, showToast]
  · intro r e hf hok hj he
    unfold request requestTry
    rw [hf]
    simp [hok, hj, he, showToast]
  · intro r e hf hok hj he
    unfold request requestTry
    rw [hf]
    simp [hok, hj, he, showToast]

/-- C9 on a network failure, on a 500 and on a JSON body that does not decode. -/
theorem request_failure_toast_witness :
    request offlineHost "/api" ⟨some "GET", none, none⟩ [] =
        (.rejected ⟨"Failed to fetch"⟩, [⟨"Erreur API: Failed to fetch", "error"⟩]) ∧
      request (exampleHost ⟨500, "Server Error", none, .ok ""⟩) "/api"
          ⟨some "GET", none, none⟩ [] =
        (.rejected ⟨"HTTP 500: Server Error"⟩,
          [⟨"Erreur API: HTTP 500: Server Error", "error"⟩]) ∧
      request (exampleHost ⟨200, "OK", some "application/json", .ok "oops"⟩) "/api"
          ⟨some "GET", none, none⟩ [] =
        (.rejected ⟨"Unexpected token"⟩, [⟨"Erreur API: Unexpected token", "error"⟩]) :=
  ⟨(request_failure_toast offlineHost "/api" ⟨some "GET", none, none⟩ []).2.1 _ rfl,
    (request_failure_toast (exampleHost ⟨500, "Server Error", none, .ok ""⟩) "/api"
      ⟨some "GET", none, none⟩ []).2.2.1 ⟨500, "Server Error", none, .ok ""⟩ rfl rfl,
    (request_failure_toast (exampleHost ⟨200, "OK", some "application/json", .ok "oops"⟩) "/api"
      ⟨some "GET", none, none⟩ []).2.2.2.1 ⟨200, "OK", some "application/json", .ok "oops"⟩
      ⟨"Unexpected token"⟩ rfl rfl rfl rfl⟩
